import Mathlib

/-!
Shallow embedding of the poirebot chess engine core (bitboard representation,
position mutation, move generation, FEN parsing, negamax search) together with
theorems checking the natural-language specification against it.

Machine integers are modelled as Nat with explicit reduction mod 2^64 where the
source relies on wrapping behaviour.  Fallible Rust code is modelled with the
RResult type below: RResult.err models a returned error value (anyhow::Error),
RResult.panicked models a panic (expect, assert, index out of bounds, or an
arithmetic overflow under the debug profile the crate's test suite runs with).
-/

set_option maxRecDepth 10000

namespace Poirebot

/-- Outcome of running a piece of Rust code: a value, a returned error, or a panic. -/
inductive RResult (α : Type) where
  | ok (a : α)
  | err (msg : String)
  | panicked (msg : String)
deriving DecidableEq, Repr

/-! ## 64-bit word algebra (bitboard.rs)

A BitBoard wraps a u64; we model the word as a Nat that is kept below 2^64 by
every operation. -/

def U64SIZE : Nat := 2 ^ 64

def U64MAX : Nat := U64SIZE - 1

/-- Rust bitwise not on u64 (BitBoard Not impl). -/
def bnot (b : Nat) : Nat := b ^^^ U64MAX

/-- Rust left shift on u64 (BitBoard Shl impl); the source only shifts by
constants below 64, so no shift-overflow panic is modelled. -/
def shl (b k : Nat) : Nat := (b <<< k) % U64SIZE

/-- Rust right shift on u64 (BitBoard Shr impl). -/
def shr (b k : Nat) : Nat := b >>> k

/-- u64::wrapping_sub. -/
def wrappingSub (a b : Nat) : Nat := (a + (U64SIZE - b % U64SIZE)) % U64SIZE

/-- u64::wrapping_mul (BitBoard Mul impl). -/
def wrappingMul (a b : Nat) : Nat := (a * b) % U64SIZE

/-- u64::count_ones (BitBoard::popcnt). -/
def popcnt (b : Nat) : Nat := ((List.range 64).filter (fun i => b.testBit i)).length

/-- u64::trailing_zeros: index of the least significant set bit, 64 when zero. -/
def trailingZeros (b : Nat) : Nat :=
  match (List.range 64).find? (fun i => b.testBit i) with
  | some i => i
  | none => 64

/-- u64::swap_bytes (BitBoard::reverse_colors): exchange the 8 bytes end-for-end. -/
def swapBytes (b : Nat) : Nat :=
  (((b >>> 0) &&& 255) <<< 56) ||| (((b >>> 8) &&& 255) <<< 48) |||
  (((b >>> 16) &&& 255) <<< 40) ||| (((b >>> 24) &&& 255) <<< 32) |||
  (((b >>> 32) &&& 255) <<< 24) ||| (((b >>> 40) &&& 255) <<< 16) |||
  (((b >>> 48) &&& 255) <<< 8) ||| ((b >>> 56) &&& 255)

/-! ## Colors and positions (game/position.rs, game/pieces/mod.rs) -/

/-- A chess piece set, white or black. -/
inductive Color where
  | White
  | Black
deriving DecidableEq, Repr

def Color.opposite : Color → Color
  | .White => .Black
  | .Black => .White

def Color.is_white (c : Color) : Bool := c = .White

def Color.is_black (c : Color) : Bool := c = .Black

/-- Position on the board: file index 0..7 (a..h) and rank index 0..7 (1..8). -/
structure Position where
  file_x : Nat
  rank_y : Nat
deriving DecidableEq, Repr

/-- The notation characters for files, a through h. -/
def FILES : List Char := ['a', 'b', 'c', 'd', 'e', 'f', 'g', 'h']

/-- The notation characters for ranks, 1 through 8. -/
def RANKS : List Char := ['1', '2', '3', '4', '5', '6', '7', '8']

/-- Position::new: validates both coordinates; an anyhow error is modelled as none. -/
def Position.new (f r : Nat) : Option Position :=
  if 7 < f then none
  else if 7 < r then none
  else some ⟨f, r⟩

/-- Position::from_notation: parse a two-character square such as a8; an anyhow
error is modelled as none. -/
def Position.from_notation (s : List Char) : Option Position :=
  if s.length ≠ 2 then none
  else
    match s with
    | [fc, rc] =>
      match FILES.findIdx? (fun c => c = fc), RANKS.findIdx? (fun c => c = rc) with
      | some f, some r => some ⟨f, r⟩
      | _, _ => none
    | _ => none

/-- The Display impl for Position: file letter followed by rank digit. -/
def Position.toNotation (p : Position) : List Char :=
  [FILES.getD p.file_x ' ', RANKS.getD p.rank_y ' ']

/-- Position::flip: mirror across the board's middle. -/
def Position.flip (p : Position) : Position := ⟨p.file_x, 7 - p.rank_y⟩

/-- Position::forwards.  The source computes rank_y - inc (Black) or
rank_y + inc (White) on u8 and then clamps to 0..7; the unchecked u8 arithmetic
overflows when inc exceeds rank_y for Black (or rank_y + inc exceeds 255 for
White), which panics under the debug profile; that is modelled as none. -/
def Position.forwards (p : Position) (c : Color) (inc : Nat) : Option Position :=
  match c with
  | .Black => if inc ≤ p.rank_y then some ⟨p.file_x, min (p.rank_y - inc) 7⟩ else none
  | .White => if p.rank_y + inc ≤ 255 then some ⟨p.file_x, min (p.rank_y + inc) 7⟩ else none

/-- Position::backwards. -/
def Position.backwards (p : Position) (c : Color) (inc : Nat) : Option Position :=
  p.forwards c.opposite inc

/-- Position::distance_rank: absolute rank distance (computed on i32 in the source). -/
def Position.distance_rank (p o : Position) : Nat :=
  ((p.rank_y : Int) - (o.rank_y : Int)).natAbs

/-- Position::to_int: rank_y shifted left by 3, xor file_x. -/
def Position.to_int (p : Position) : Nat := (p.rank_y <<< 3) ^^^ p.file_x

/-! ## Moves and promotions (game/mod.rs) -/

/-- A pawn promotion decision; none when there is no promotion. -/
inductive Promotion where
  | queen
  | rook
  | bishop
  | knight
  | none
deriving DecidableEq, Repr

/-- The Display impl for Promotion: one lowercase letter, empty for none. -/
def Promotion.toChars : Promotion → List Char
  | .queen => ['q']
  | .rook => ['r']
  | .bishop => ['b']
  | .knight => ['n']
  | .none => []

/-- The From String impl for Promotion: q, r, b, n; anything else is none. -/
def Promotion.fromChars (s : List Char) : Promotion :=
  match s with
  | ['q'] => .queen
  | ['r'] => .rook
  | ['b'] => .bishop
  | ['n'] => .knight
  | _ => .none

/-- A chess piece move: origin, destination, promotion (struct Move). -/
structure Move where
  origin : Position
  destination : Position
  promotion : Promotion
deriving DecidableEq, Repr

/-- Move::to_pure_notation. -/
def Move.to_pure_notation (m : Move) : List Char :=
  m.origin.toNotation ++ m.destination.toNotation ++ m.promotion.toChars

/-- Move::from_pure_notation: origin is the first two characters, destination
the next two; the promotion is read from chars().skip(3).take(1), i.e. the
character at index 3.  The String conversions for the two squares go through
Position::from_notation with expect, so an invalid square is a panic. -/
def Move.from_pure_notation (s : List Char) : RResult Move :=
  let origin := s.take 2
  let destination := (s.drop 2).take 2
  let promotion := (s.drop 3).take 1
  match Position.from_notation origin, Position.from_notation destination with
  | some o, some d => .ok ⟨o, d, Promotion.fromChars promotion⟩
  | _, _ => .panicked "invalid notation"

/-! ## Pieces (game/pieces/mod.rs) -/

/-- A chess piece: kind, color and square. -/
inductive Pieces where
  | pawn (c : Color) (p : Position)
  | rook (c : Color) (p : Position)
  | knight (c : Color) (p : Position)
  | bishop (c : Color) (p : Position)
  | queen (c : Color) (p : Position)
  | king (c : Color) (p : Position)
deriving DecidableEq, Repr

def Pieces.get_color : Pieces → Color
  | .pawn c _ => c
  | .rook c _ => c
  | .knight c _ => c
  | .bishop c _ => c
  | .queen c _ => c
  | .king c _ => c

def Pieces.get_position : Pieces → Position
  | .pawn _ p => p
  | .rook _ p => p
  | .knight _ p => p
  | .bishop _ p => p
  | .queen _ p => p
  | .king _ p => p

def Pieces.is_pawn : Pieces → Bool
  | .pawn _ _ => true
  | _ => false

def Pieces.is_rook : Pieces → Bool
  | .rook _ _ => true
  | _ => false

def Pieces.is_knight : Pieces → Bool
  | .knight _ _ => true
  | _ => false

def Pieces.is_bishop : Pieces → Bool
  | .bishop _ _ => true
  | _ => false

def Pieces.is_queen : Pieces → Bool
  | .queen _ _ => true
  | _ => false

def Pieces.is_king : Pieces → Bool
  | .king _ _ => true
  | _ => false

/-- The From str impls for Position used for constant squares; always valid here. -/
def posN (s : List Char) : Position := (Position.from_notation s).getD ⟨0, 0⟩

/-- BitBoard::from_position: the single bit at the square's index. -/
def bbFromPos (p : Position) : Nat := shl 1 p.to_int

/-- BitBoard::to_position: coordinates of the least significant set bit. -/
def bbToPosition (b : Nat) : Position :=
  let t := trailingZeros b
  ⟨(t &&& 7) % 8, (t >>> 3) % 8⟩

/-- The destructive BitBoard iterator collected to a list: it repeatedly emits
the least significant set bit and clears it, so it yields the set squares in
ascending index order, which is the filter of 0..63 below. -/
def bbIter (b : Nat) : List Position :=
  ((List.range 64).filter (fun i => b.testBit i)).map (fun i => ⟨i % 8, i / 8⟩)

/-- Constant file masks FILE_A..FILE_H (game/pieces/mod.rs). -/
def FILE_A : Nat := 0x0101010101010101
def FILE_B : Nat := shl FILE_A 1
def FILE_C : Nat := shl FILE_A 2
def FILE_D : Nat := shl FILE_A 3
def FILE_E : Nat := shl FILE_A 4
def FILE_F : Nat := shl FILE_A 5
def FILE_G : Nat := shl FILE_A 6
def FILE_H : Nat := shl FILE_A 7

/-- The FILES constant of bitboards (named FILE_BBS here since FILES already
names the notation characters). -/
def FILE_BBS : List Nat := [FILE_A, FILE_B, FILE_C, FILE_D, FILE_E, FILE_F, FILE_G, FILE_H]

/-- Constant rank masks RANK_1..RANK_8 (game/pieces/mod.rs). -/
def RANK_1 : Nat := 0xff
def RANK_2 : Nat := shl RANK_1 8
def RANK_3 : Nat := shl RANK_2 8
def RANK_4 : Nat := shl RANK_3 8
def RANK_5 : Nat := shl RANK_4 8
def RANK_6 : Nat := shl RANK_5 8
def RANK_7 : Nat := shl RANK_6 8
def RANK_8 : Nat := shl RANK_7 8

/-- The RANKS constant of bitboards (named RANK_BBS here since RANKS already
names the notation characters). -/
def RANK_BBS : List Nat := [RANK_1, RANK_2, RANK_3, RANK_4, RANK_5, RANK_6, RANK_7, RANK_8]

/-- get_castling_rook_move: when the king move is one of the four castling
moves, the corresponding rook move. -/
def get_castling_rook_move (km : Move) : Option Move :=
  if km = ⟨posN ['e', '1'], posN ['c', '1'], .none⟩ then
    some ⟨posN ['a', '1'], posN ['d', '1'], .none⟩
  else if km = ⟨posN ['e', '1'], posN ['g', '1'], .none⟩ then
    some ⟨posN ['h', '1'], posN ['f', '1'], .none⟩
  else if km = ⟨posN ['e', '8'], posN ['c', '8'], .none⟩ then
    some ⟨posN ['a', '8'], posN ['d', '8'], .none⟩
  else if km = ⟨posN ['e', '8'], posN ['g', '8'], .none⟩ then
    some ⟨posN ['h', '8'], posN ['f', '8'], .none⟩
  else
    Option.none

/-- is_pawn_two_step: the move covers two ranks and starts from rank 2 or 7. -/
def is_pawn_two_step (m : Move) : Bool :=
  m.origin.distance_rank m.destination = 2 && (m.origin.rank_y = 1 || m.origin.rank_y = 6)

/-! ## Board sides and the board (game/mod.rs) -/

/-- One side of the board (struct BoardSide). -/
structure BoardSide where
  color : Color
  pawns : Nat
  rooks : Nat
  knights : Nat
  bishops : Nat
  queens : Nat
  king : Nat
  unmoved_rooks : Nat
  en_passant_target : Nat
  pieces : Nat
  attacks : Nat
  king_has_moved : Bool
deriving DecidableEq, Repr

/-- BoardSide::refresh: recompute the inherited fields; attacks is always
cleared (the source has a TODO and never populates it). -/
def BoardSide.refresh (s : BoardSide) : BoardSide :=
  { s with
    pieces := s.pawns ||| s.rooks ||| s.knights ||| s.bishops ||| s.queens ||| s.king
    attacks := 0 }

/-- The empty side that BoardSide::new starts from before running its closure. -/
def BoardSide.empty (c : Color) : BoardSide :=
  ⟨c, 0, 0, 0, 0, 0, 0, 0, 0, 0, 0, false⟩

/-- BoardSide::get_piece: probe the per-kind bitboards in source order. -/
def BoardSide.get_piece (s : BoardSide) (pos : Position) : Option Pieces :=
  let bb := bbFromPos pos
  if popcnt (bb &&& s.pawns) = 1 then some (.pawn s.color pos)
  else if popcnt (bb &&& s.rooks) = 1 then some (.rook s.color pos)
  else if popcnt (bb &&& s.knights) = 1 then some (.knight s.color pos)
  else if popcnt (bb &&& s.bishops) = 1 then some (.bishop s.color pos)
  else if popcnt (bb &&& s.queens) = 1 then some (.queen s.color pos)
  else if popcnt (bb &&& s.king) = 1 then some (.king s.color pos)
  else Option.none

/-- BoardSide::flip: the same side seen from the other color. -/
def BoardSide.flip (s : BoardSide) : BoardSide :=
  { color := s.color.opposite
    pawns := swapBytes s.pawns
    rooks := swapBytes s.rooks
    knights := swapBytes s.knights
    bishops := swapBytes s.bishops
    queens := swapBytes s.queens
    king := swapBytes s.king
    unmoved_rooks := swapBytes s.unmoved_rooks
    en_passant_target := swapBytes s.en_passant_target
    pieces := swapBytes s.pieces
    attacks := swapBytes s.attacks
    king_has_moved := s.king_has_moved }

/-- The board: the white side and the black side. -/
structure Board where
  white : BoardSide
  black : BoardSide
deriving DecidableEq, Repr

def Board.get_side (b : Board) : Color → BoardSide
  | .White => b.white
  | .Black => b.black

/-- Board::get_piece: the white side is probed before the black side. -/
def Board.get_piece (b : Board) (pos : Position) : Option Pieces :=
  match b.white.get_piece pos with
  | some p => some p
  | Option.none => b.black.get_piece pos

/-- Board::get_piece_value: material value of the piece on a square, 0 if empty. -/
def Board.get_piece_value (b : Board) (pos : Position) : Nat :=
  match b.get_piece pos with
  | some (.pawn _ _) => 1
  | some (.bishop _ _) => 3
  | some (.knight _ _) => 3
  | some (.rook _ _) => 5
  | some (.queen _ _) => 8
  | some (.king _ _) => 100
  | Option.none => 0

/-- The Default impl for Board: the usual starting position, with the black
side produced by flipping the white side. -/
def Board.default : Board :=
  let white : BoardSide :=
    (BoardSide.empty .White |> fun side =>
      { side with
        pawns :=
          bbFromPos (posN ['a', '2']) ||| bbFromPos (posN ['b', '2']) |||
          bbFromPos (posN ['c', '2']) ||| bbFromPos (posN ['d', '2']) |||
          bbFromPos (posN ['e', '2']) ||| bbFromPos (posN ['f', '2']) |||
          bbFromPos (posN ['g', '2']) ||| bbFromPos (posN ['h', '2'])
        rooks := bbFromPos (posN ['a', '1']) ||| bbFromPos (posN ['h', '1'])
        knights := bbFromPos (posN ['b', '1']) ||| bbFromPos (posN ['g', '1'])
        bishops := bbFromPos (posN ['c', '1']) ||| bbFromPos (posN ['f', '1'])
        queens := bbFromPos (posN ['d', '1'])
        king := bbFromPos (posN ['e', '1']) }) |> fun side =>
      ({ side with unmoved_rooks := side.rooks }).refresh
  ⟨white, white.flip⟩

/-! ## Board::apply_move (game/mod.rs) -/

/-- The capture block at the end of apply_move: remove the taken piece from the
opponent's matching bitboard and refresh.  The source's six-way match assigns
exactly one field per kind; it is written here as one update with a per-field
kind test, which produces the same side. -/
def removeTaken (opponent : BoardSide) (t : Pieces) : BoardSide :=
  let rm := bbFromPos t.get_position
  ({ opponent with
     pawns := if t.is_pawn then opponent.pawns &&& bnot rm else opponent.pawns
     rooks := if t.is_rook then opponent.rooks &&& bnot rm else opponent.rooks
     knights := if t.is_knight then opponent.knights &&& bnot rm else opponent.knights
     bishops := if t.is_bishop then opponent.bishops &&& bnot rm else opponent.bishops
     queens := if t.is_queen then opponent.queens &&& bnot rm else opponent.queens
     king := if t.is_king then opponent.king &&& bnot rm else opponent.king }).refresh

/-- The shared tail of apply_move: the capture block (friendly fire panics,
otherwise the taken piece is removed from the opponent) followed by writing
the two sides back into the board by color. -/
def finishMove (color : Color) (side opponent : BoardSide)
    (taken : Option Pieces) : RResult Board :=
  match taken with
  | Option.none =>
    match color with
    | .White => .ok ⟨side, opponent⟩
    | .Black => .ok ⟨opponent, side⟩
  | some t =>
    if t.get_color = color then .panicked "tried to friendly-fire"
    else
      match color with
      | .White => .ok ⟨side, removeTaken opponent t⟩
      | .Black => .ok ⟨removeTaken opponent t, side⟩

/-- Board::apply_move.  Panics (expect on a missing origin piece, the
friendly-fire check, the castling assertions, and the u8 underflow inside
destination.backwards during en-passant detection) are RResult.panicked. -/
def Board.apply_move (b : Board) (m : Move) : RResult Board :=
  let originBB := bbFromPos m.origin
  let destBB := bbFromPos m.destination
  match b.get_piece m.origin with
  | Option.none => .panicked "moved something that does not exist"
  | some pieceMoved =>
    let color := pieceMoved.get_color
    let side := b.get_side color
    let opponent := b.get_side color.opposite
    let taken0 := b.get_piece m.destination
    match pieceMoved with
    | .pawn _ _ =>
      -- The source clears the origin pawn bit and then adds the destination
      -- bit to exactly one board selected by a five-way match on the
      -- promotion; the match is written as one update with per-field
      -- promotion tests, which produces the same side.
      let side :=
        { side with
          pawns :=
            if m.promotion = Promotion.none then (side.pawns &&& bnot originBB) ||| destBB
            else side.pawns &&& bnot originBB
          queens :=
            if m.promotion = Promotion.queen then side.queens ||| destBB else side.queens
          rooks :=
            if m.promotion = Promotion.rook then side.rooks ||| destBB else side.rooks
          bishops :=
            if m.promotion = Promotion.bishop then side.bishops ||| destBB else side.bishops
          knights :=
            if m.promotion = Promotion.knight then side.knights ||| destBB else side.knights }
      let takenR : RResult (Option Pieces) :=
        if popcnt opponent.en_passant_target = 1 then
          let ep := bbToPosition opponent.en_passant_target
          match m.destination.backwards color 1 with
          | Option.none => .panicked "attempt to subtract with overflow"
          | some back => .ok (if ep = back then b.get_piece ep else taken0)
        else .ok taken0
      match takenR with
      | .panicked s => .panicked s
      | .err s => .err s
      | .ok taken =>
        let opponent := { opponent with en_passant_target := 0 }
        let side :=
          if is_pawn_two_step m then
            { side with en_passant_target := side.en_passant_target ||| destBB }
          else side
        finishMove color side.refresh opponent taken
    | .rook _ _ =>
      let side :=
        { side with
          rooks := (side.rooks &&& bnot originBB) ||| destBB
          unmoved_rooks := side.unmoved_rooks &&& bnot originBB }
      finishMove color side.refresh { opponent with en_passant_target := 0 } taken0
    | .knight _ _ =>
      let side := { side with knights := (side.knights &&& bnot originBB) ||| destBB }
      finishMove color side.refresh { opponent with en_passant_target := 0 } taken0
    | .bishop _ _ =>
      let side := { side with bishops := (side.bishops &&& bnot originBB) ||| destBB }
      finishMove color side.refresh { opponent with en_passant_target := 0 } taken0
    | .queen _ _ =>
      let side := { side with queens := (side.queens &&& bnot originBB) ||| destBB }
      finishMove color side.refresh { opponent with en_passant_target := 0 } taken0
    | .king _ _ =>
      let side :=
        { side with
          king := (side.king &&& bnot originBB) ||| destBB
          king_has_moved := true }
      let opponent := { opponent with en_passant_target := 0 }
      match get_castling_rook_move m with
      | Option.none => finishMove color side.refresh opponent taken0
      | some rm =>
        let rookOriginBB := bbFromPos rm.origin
        let rookDestBB := bbFromPos rm.destination
        if popcnt (rookOriginBB &&& side.rooks) ≠ 1 then
          .panicked "assertion failed: castling rook is not there"
        else if popcnt (rookOriginBB &&& side.unmoved_rooks) ≠ 1 then
          .panicked "assertion failed: castling rook has moved"
        else
          let side :=
            { side with
              rooks := (side.rooks &&& bnot rookOriginBB) ||| rookDestBB
              unmoved_rooks := side.unmoved_rooks &&& bnot rookOriginBB }
          finishMove color side.refresh opponent taken0

/-! ## Knight and king tables (game/pieces/knight.rs, king.rs) -/

/-- One entry of compile_knight_moves: the eight offset jumps from square i,
each masked against wrap-around across the a/b and g/h files. -/
def knightMovesAt (i : Nat) : Nat :=
  let center := shl 1 i
  ((shl center 17) &&& bnot FILE_A) |||
  ((shl center 10) &&& bnot FILE_A &&& bnot FILE_B) |||
  ((shr center 6) &&& bnot FILE_A &&& bnot FILE_B) |||
  ((shr center 15) &&& bnot FILE_A) |||
  ((shr center 17) &&& bnot FILE_H) |||
  ((shr center 10) &&& bnot FILE_H &&& bnot FILE_G) |||
  ((shl center 6) &&& bnot FILE_H &&& bnot FILE_G) |||
  ((shl center 15) &&& bnot FILE_H)

/-- KNIGHT_MOVES: the 64 knight step boards. -/
def KNIGHT_MOVES : List Nat := (List.range 64).map knightMovesAt

/-- One entry of compile_king_moves: (file with neighbours) intersected with
(rank with neighbours), minus the center square. -/
def kingMovesAt (i : Nat) : Nat :=
  let file := i % 8
  let rank := i / 8
  let center := shl 1 i
  let files := FILE_BBS.getD file 0
  let files := if file ≠ 0 then files ||| FILE_BBS.getD (file - 1) 0 else files
  let files := if file ≠ 7 then files ||| FILE_BBS.getD (file + 1) 0 else files
  let ranks := RANK_BBS.getD rank 0
  let ranks := if rank ≠ 0 then ranks ||| RANK_BBS.getD (rank - 1) 0 else ranks
  let ranks := if rank ≠ 7 then ranks ||| RANK_BBS.getD (rank + 1) 0 else ranks
  files &&& ranks &&& bnot center

/-- KING_MOVES: the 64 king step boards. -/
def KING_MOVES : List Nat := (List.range 64).map kingMovesAt

/-- get_knight_moves: table lookup minus own pieces. -/
def get_knight_moves (b : Board) (color : Color) (origin : Position) : Nat :=
  (KNIGHT_MOVES.getD origin.to_int 0) &&& bnot (b.get_side color).pieces

/-- get_king_steps: table lookup minus own pieces (castling not generated here). -/
def get_king_steps (b : Board) (color : Color) (origin : Position) : Nat :=
  (KING_MOVES.getD origin.to_int 0) &&& bnot (b.get_side color).pieces

/-! ## Pawn moves (game/pieces/pawn.rs) -/

/-- get_pawn_moves_and_attacks: single steps, the two capture directions
against capturable squares (opposing pieces union the opposing en-passant
target board), and guarded double steps. -/
def get_pawn_moves_and_attacks (b : Board) (color : Color) (origin : Nat) : Nat :=
  let all_pieces := b.white.pieces ||| b.black.pieces
  let other_side := b.get_side color.opposite
  let capturable := other_side.pieces ||| other_side.en_passant_target
  if color.is_white then
    ((shl origin 8) &&& bnot all_pieces) |||
    ((shl (origin &&& bnot FILE_H) 9) &&& capturable) |||
    ((shl (origin &&& bnot FILE_A) 7) &&& capturable) |||
    (shl (origin &&& RANK_2 &&& (shr (bnot (all_pieces &&& RANK_3)) 8) &&&
      (shr (bnot (all_pieces &&& RANK_4)) 16)) 16)
  else
    ((shr origin 8) &&& bnot all_pieces) |||
    ((shr (origin &&& bnot FILE_H) 7) &&& capturable) |||
    ((shr (origin &&& bnot FILE_A) 9) &&& capturable) |||
    (shr (origin &&& RANK_7 &&& (shl (bnot (all_pieces &&& RANK_6)) 8) &&&
      (shl (bnot (all_pieces &&& RANK_5)) 16)) 16)

/-! ## FEN parsing (game/fen.rs) -/

/-- The default starting position in FEN. -/
def DEFAULT_FEN : String := "rnbqkbnr/pppppppp/8/8/8/8/PPPPPPPP/RNBQKBNR w KQkq - 0 1"

/-- Accumulator loop for splitWhitespace: cur holds the current word reversed. -/
def splitWsAux (s : List Char) (cur : List Char) : List (List Char) :=
  match s with
  | [] => if cur = [] then [] else [cur.reverse]
  | c :: rest =>
    if c.isWhitespace then
      if cur = [] then splitWsAux rest []
      else cur.reverse :: splitWsAux rest []
    else splitWsAux rest (c :: cur)

/-- str::split_whitespace: maximal runs of non-whitespace characters, empty
runs skipped. -/
def splitWhitespace (s : List Char) : List (List Char) := splitWsAux s []

/-- str::split on one separator character, keeping empty segments. -/
def splitChar (sep : Char) (s : List Char) : List (List Char) :=
  match s with
  | [] => [[]]
  | c :: rest =>
    if c = sep then [] :: splitChar sep rest
    else
      match splitChar sep rest with
      | [] => [[c]]
      | w :: ws => (c :: w) :: ws

/-- The piece-placement loop of Board::from_fen over one rank string: threads
the running file index and the collected pieces; a non-digit, non-piece
character is an error, and placing a piece on a file beyond h (more than eight
squares of pieces in the rank) panics inside the From tuple conversion for
Position (Position::new expect). -/
def fenRankPieces (rank : Nat) (chars : List Char) (file : Nat)
    (acc : List Pieces) : RResult (Nat × List Pieces) :=
  match chars with
  | [] => .ok (file, acc)
  | c :: rest =>
    if c.isDigit then fenRankPieces rank rest (file + (c.toNat - '0'.toNat)) acc
    else
      let color := if c.isUpper then Color.White else Color.Black
      match
        (match c.toLower with
          | 'p' => some (Pieces.pawn color)
          | 'r' => some (Pieces.rook color)
          | 'n' => some (Pieces.knight color)
          | 'b' => some (Pieces.bishop color)
          | 'q' => some (Pieces.queen color)
          | 'k' => some (Pieces.king color)
          | _ => Option.none) with
      | Option.none => .err "invalid piece descriptor"
      | some mk =>
        match Position.new file rank with
        | Option.none => .panicked "invalid notation"
        | some pos => fenRankPieces rank rest (file + 1) (acc ++ [mk pos])

/-- The outer rank loop of Board::from_fen: rank index 7 - i for the i-th
segment, and each rank must account for exactly eight files. -/
def fenPlacement (ranks : List (List Char)) (i : Nat)
    (acc : List Pieces) : RResult (List Pieces) :=
  match ranks with
  | [] => .ok acc
  | r :: rest =>
    match fenRankPieces (7 - i) r 0 [] with
    | .err s => .err s
    | .panicked s => .panicked s
    | .ok (file, pieces) =>
      if file ≠ 8 then .err "incomplete rank pieces"
      else fenPlacement rest (i + 1) (acc ++ pieces)

/-- Fold a list of parsed pieces of one color into a fresh BoardSide, then add
castling rights and the en-passant target, as the BoardSide::new closures do. -/
def fenSide (c : Color) (pieces : List Pieces) (queenside kingside : Bool)
    (ep : Option (Position × Color)) (qsq ksq : Position) : RResult BoardSide :=
  let side := pieces.foldl
    (fun side p =>
      if p.get_color = c then
        match p with
        | .pawn _ pos => { side with pawns := side.pawns ||| bbFromPos pos }
        | .rook _ pos => { side with rooks := side.rooks ||| bbFromPos pos }
        | .knight _ pos => { side with knights := side.knights ||| bbFromPos pos }
        | .bishop _ pos => { side with bishops := side.bishops ||| bbFromPos pos }
        | .queen _ pos => { side with queens := side.queens ||| bbFromPos pos }
        | .king _ pos => { side with king := side.king ||| bbFromPos pos }
      else side)
    (BoardSide.empty c)
  let side :=
    if queenside then { side with unmoved_rooks := side.unmoved_rooks ||| bbFromPos qsq }
    else side
  let side :=
    if kingside then { side with unmoved_rooks := side.unmoved_rooks ||| bbFromPos ksq }
    else side
  match ep with
  | some (pos, epc) =>
    if epc = c then
      match pos.forwards epc 1 with
      | Option.none => .panicked "attempt to add or subtract with overflow"
      | some fwd =>
        .ok ({ side with en_passant_target := side.en_passant_target ||| bbFromPos fwd }).refresh
    else .ok side.refresh
  | Option.none => .ok side.refresh

/-- Board::from_fen on the already-split whitespace fields (everything after
the startpos aliasing). -/
def fromFenFields (fields : List (List Char)) : RResult Board :=
  match fields with
  | [] => .err "no piece placement"
  | placement :: fields1 =>
    let ranks := splitChar '/' placement
    if ranks.length ≠ 8 then .err "piece placement does not have 8 ranks"
    else
      match fenPlacement ranks 0 [] with
      | .err s => .err s
      | .panicked s => .panicked s
      | .ok pieces =>
        match fields1 with
        | [] => .err "no active color"
        | _activeColor :: fields2 =>
          match fields2 with
          | [] => .err "no castling availability"
          | castling :: fields3 =>
            let wq := castling.contains 'Q'
            let wk := castling.contains 'K'
            let bq := castling.contains 'q'
            let bk := castling.contains 'k'
            match fields3 with
            | [] => .err "no en passant target square"
            | epField :: fields4 =>
              let epR : RResult (Option (Position × Color)) :=
                if epField = ['-'] then .ok Option.none
                else
                  match Position.from_notation epField with
                  | Option.none => .err "invalid en passant target"
                  | some pos =>
                    if pos.rank_y = 2 then .ok (some (pos, Color.White))
                    else if pos.rank_y = 5 then .ok (some (pos, Color.Black))
                    else .err "impossible en passant target"
              match epR with
              | .err s => .err s
              | .panicked s => .panicked s
              | .ok ep =>
                match fields4 with
                | [] => .err "no half-move clock"
                | _halfMove :: fields5 =>
                  match fields5 with
                  | [] => .err "no full-move clock"
                  | _fullMove :: _ =>
                    match fenSide .White pieces wq wk ep (posN ['a', '1']) (posN ['h', '1']) with
                    | .err s => .err s
                    | .panicked s => .panicked s
                    | .ok white =>
                      match fenSide .Black pieces bq bk ep (posN ['a', '8']) (posN ['h', '8']) with
                      | .err s => .err s
                      | .panicked s => .panicked s
                      | .ok black => .ok ⟨white, black⟩

/-- Board::from_fen, with the startpos alias expanded to the default FEN. -/
def Board.from_fen (fen : String) : RResult Board :=
  if fen = "startpos" then fromFenFields (splitWhitespace DEFAULT_FEN.data)
  else fromFenFields (splitWhitespace fen.data)

/-! ## Sliding move generation

The callers in genius.rs, bishop.rs and queen.rs use get_rook_sliding_moves,
get_sliding_straight_moves and get_sliding_diagonal_moves, whose definitions
are not among the provided sources; they are modelled from the spec here. -/

/-- Modelled from the spec: one ray walk of the sliding-piece generator
(the source file defining the final sliding helpers is not under src).
Section 4.3.1 and section 8 of the spec: the attacks along a ray are the
squares obtained by walking the ray from the slider until hitting, and
including, the first occupied square.  Coordinates are signed to stop at the
board edge; fuel 7 bounds the walk. -/
def rayWalk (occ : Nat) (fuel : Nat) (f r df dr : Int) : Nat :=
  match fuel with
  | 0 => 0
  | fuel + 1 =>
    let cf := f + df
    let cr := r + dr
    if 0 ≤ cf ∧ cf < 8 ∧ 0 ≤ cr ∧ cr < 8 then
      let idx := (cr * 8 + cf).toNat
      let bit := shl 1 idx
      if occ.testBit idx then bit
      else bit ||| rayWalk occ fuel cf cr df dr
    else 0

/-- Modelled from the spec: union of the ray attacks from every origin square
in the given directions, with friendly pieces removed at the end
(attacks intersected with the complement of own pieces). -/
def slidingMoves (b : Board) (color : Color) (origin : Nat)
    (dirs : List (Int × Int)) : Nat :=
  let occ := b.white.pieces ||| b.black.pieces
  let own := (b.get_side color).pieces
  let attacks := (bbIter origin).foldl
    (fun acc p =>
      dirs.foldl
        (fun acc d => acc ||| rayWalk occ 7 (p.file_x : Int) (p.rank_y : Int) d.1 d.2)
        acc)
    0
  attacks &&& bnot own

/-- Modelled from the spec: get_sliding_straight_moves, the four rook rays
(north, south, east, west). -/
def get_sliding_straight_moves (b : Board) (color : Color) (origin : Nat) : Nat :=
  slidingMoves b color origin [(0, 1), (0, -1), (1, 0), (-1, 0)]

/-- Modelled from the spec: get_sliding_diagonal_moves, the four bishop rays. -/
def get_sliding_diagonal_moves (b : Board) (color : Color) (origin : Nat) : Nat :=
  slidingMoves b color origin [(1, 1), (1, -1), (-1, 1), (-1, -1)]

/-- Modelled from the spec: get_rook_sliding_moves as used by genius.rs;
rook = horizontal union vertical. -/
def get_rook_sliding_moves (b : Board) (color : Color) (origin : Nat) : Nat :=
  get_sliding_straight_moves b color origin

/-- get_bishop_sliding_moves (game/pieces/bishop.rs). -/
def get_bishop_sliding_moves (b : Board) (color : Color) (origin : Nat) : Nat :=
  get_sliding_diagonal_moves b color origin

/-- get_queen_sliding_moves (game/pieces/queen.rs): diagonal union straight. -/
def get_queen_sliding_moves (b : Board) (color : Color) (origin : Nat) : Nat :=
  get_sliding_diagonal_moves b color origin ||| get_sliding_straight_moves b color origin

/-! ## Search (genius.rs) -/

/-- An assessment of a game state.  The derived Rust Ord gives
Worst < Score i < Best with scores compared by value. -/
inductive Evaluation where
  | Worst
  | Score (i : Int)
  | Best
deriving DecidableEq, Repr

/-- The strict order of the derived Ord impl on Evaluation. -/
def Evaluation.blt : Evaluation → Evaluation → Bool
  | .Worst, .Worst => false
  | .Worst, _ => true
  | .Score _, .Worst => false
  | .Score i, .Score j => i < j
  | .Score _, .Best => true
  | .Best, _ => false

/-- The non-strict order on Evaluation (a ≤ b iff not b < a). -/
def Evaluation.ble (a b : Evaluation) : Bool := !(Evaluation.blt b a)

/-- The Neg impl on Evaluation. -/
def Evaluation.neg : Evaluation → Evaluation
  | .Worst => .Best
  | .Score s => .Score (-s)
  | .Best => .Worst

/-- std::cmp::max on Evaluation: the second argument wins ties. -/
def evalMax (a b : Evaluation) : Evaluation := if Evaluation.blt b a then a else b

/-- Modelled from the spec: Board::piecewise_score is not under src; section
4.4.1 defines the material sum of one side with the values pawn 1, knight 3,
bishop 3, rook 5, queen 8, king 100. -/
def material (s : BoardSide) : Int :=
  (popcnt s.pawns : Int) * 1 + (popcnt s.knights : Int) * 3 + (popcnt s.bishops : Int) * 3 +
  (popcnt s.rooks : Int) * 5 + (popcnt s.queens : Int) * 8 + (popcnt s.king : Int) * 100

/-- Modelled from the spec: Board::piecewise_score, the material difference
from the given side's perspective. -/
def Board.piecewise_score (b : Board) (c : Color) : Int :=
  material (b.get_side c) - material (b.get_side c.opposite)

/-- The evaluate function of genius.rs: the piecewise score as a Score. -/
def evaluate (color : Color) (b : Board) : Evaluation := .Score (b.piecewise_score color)

/-- A move the brain could perform with its ordering estimate.  The estimate is
an f32 taking only the values 0.0 (non-pawn) and 0.5 (pawn bonus) in the
source; it is represented by the order-isomorphic Nat values 0 and 5. -/
structure BrainMove where
  m : Move
  estimate : Nat
deriving DecidableEq, Repr

/-- The promote chooser of genius.rs: queen on the first or last rank. -/
def promote (destination : Position) : Promotion :=
  if destination.rank_y = 0 ∨ destination.rank_y = 7 then .queen else .none

/-- The flat_map stage of list_potential_moves: per piece kind, each origin is
paired with its destination board and expanded into moves, pawns getting the
automatic promotion. -/
def rawPotentialMoves (b : Board) (color : Color) : List Move :=
  let side := b.get_side color
  let tasks : List (Position × Nat × Bool) :=
    ((bbIter side.pawns).map
      (fun p => (p, get_pawn_moves_and_attacks b color (bbFromPos p), true))) ++
    ((bbIter side.rooks).map
      (fun p => (p, get_rook_sliding_moves b color (bbFromPos p), false))) ++
    ((bbIter side.knights).map
      (fun p => (p, get_knight_moves b color p, false))) ++
    ((bbIter side.bishops).map
      (fun p => (p, get_bishop_sliding_moves b color (bbFromPos p), false))) ++
    ((bbIter side.queens).map
      (fun p => (p, get_queen_sliding_moves b color (bbFromPos p), false))) ++
    ((bbIter side.king).map
      (fun p => (p, get_king_steps b color p, false)))
  tasks.flatMap
    (fun t =>
      (bbIter t.2.1).map
        (fun destination =>
          if t.2.2 then ⟨t.1, destination, promote destination⟩
          else ⟨t.1, destination, Promotion.none⟩))

/-- The estimate of a move: 0.5 for pawn moves (represented as 5); the source
unwraps get_piece at the origin, which cannot fail for generated origins. -/
def estimateOf (b : Board) (m : Move) : Nat :=
  match b.get_piece m.origin with
  | some pc => if pc.is_pawn then 5 else 0
  | Option.none => 0

/-- Stable insertion into an ascending list: an element goes before the first
element it is less than or equal to, so earlier elements stay first among
equals. -/
def insertAsc (x : BrainMove) : List BrainMove → List BrainMove
  | [] => [x]
  | y :: ys => if x.estimate ≤ y.estimate then x :: y :: ys else y :: insertAsc x ys

/-- Stable ascending sort by estimate.  itertools sorted is a stable sort by
the same key, and a stable sort's output (elements ordered by key with the
original order preserved among equals) is implementation-independent, so this
structural insertion sort produces exactly the source's list. -/
def stableSortByEstimate : List BrainMove → List BrainMove
  | [] => []
  | x :: xs => insertAsc x (stableSortByEstimate xs)

/-- list_potential_moves: the raw pseudo-legal moves scored, stably sorted by
estimate ascending (itertools sorted) and reversed.  No legality filtering of
any kind is applied. -/
def list_potential_moves (b : Board) (color : Color) : List BrainMove :=
  (stableSortByEstimate
    ((rawPotentialMoves b color).map (fun m => BrainMove.mk m (estimateOf b m)))).reverse

/-- A search result: an evaluation and the first move of the line (struct Node). -/
structure Node where
  eval : Evaluation
  m : Move
deriving DecidableEq, Repr

/-- The Default impl for Node: Worst with a default move. -/
def Node.default : Node := ⟨.Worst, ⟨⟨0, 0⟩, ⟨0, 0⟩, .none⟩⟩

/-- The Neg impl on Node: negate the evaluation, keep the move. -/
def Node.neg (n : Node) : Node := ⟨n.eval.neg, n.m⟩

/-- std::cmp::max on Node (ordered by eval only): second argument wins ties. -/
def nodeMax (a b : Node) : Node := if Evaluation.blt b.eval a.eval then a else b

/-- The recursive negamax of genius.rs.  At depth 0 or with no moves it builds
a Node from previous_moves[0], which panics at the root where previous_moves
is empty.  The loop with its beta cutoff is a fold carrying
(value, alpha, done); done models the break. -/
def negamax (genius_color : Color) (b : Board) (depth : Nat)
    (alpha beta : Evaluation) (color : Color) (previous_moves : List Move) : RResult Node :=
  let moves := list_potential_moves b color
  let terminal : RResult Node :=
    let eval :=
      if moves = [] ∧ color = genius_color then Evaluation.Worst
      else if moves = [] ∧ color ≠ genius_color then Evaluation.Best
      else evaluate genius_color b
    match previous_moves with
    | [] => .panicked "index out of bounds"
    | q :: _ => .ok ⟨eval, q⟩
  match depth with
  | 0 => terminal
  | d + 1 =>
    if moves = [] then terminal
    else
      let result := moves.foldl
        (fun (st : RResult (Node × Evaluation × Bool)) bm =>
          match st with
          | .panicked s => .panicked s
          | .err s => .err s
          | .ok (value, alpha, done) =>
            if done then .ok (value, alpha, done)
            else
              match b.apply_move bm.m with
              | .panicked s => .panicked s
              | .err s => .err s
              | .ok outcome =>
                match negamax genius_color outcome d beta.neg alpha.neg color.opposite
                    (previous_moves ++ [bm.m]) with
                | .panicked s => .panicked s
                | .err s => .err s
                | .ok child =>
                  let value := nodeMax value child.neg
                  let alpha := evalMax alpha value.eval
                  if Evaluation.ble beta alpha then .ok (value, alpha, true)
                  else .ok (value, alpha, false))
        (.ok (Node.default, alpha, false))
      match result with
      | .panicked s => .panicked s
      | .err s => .err s
      | .ok (value, _, _) => .ok value

/-! ## Spec-side legality notions (spec sections 4.3, 4.4.3)

The source contains no legality filter; the following definitions transcribe
the spec's wording so the claims about legality can be stated. -/

/-- Defined from the spec's words (section 4.4.3): the attack test issues the
pseudo-legal move generator from the opponent's perspective and intersects the
destinations with the king bitboard. -/
def kingAttackedSpec (b : Board) (c : Color) : Bool :=
  (list_potential_moves b c.opposite).any
    (fun bm => (bbFromPos bm.m.destination &&& (b.get_side c).king) ≠ 0)

/-- Defined from the spec's words (section 4.4.3): a pseudo-legal move is legal
iff the resulting board does not leave the mover's king attacked. -/
def legalSpec (b : Board) (c : Color) (m : Move) : Bool :=
  match b.apply_move m with
  | .ok b2 => !(kingAttackedSpec b2 c)
  | _ => false

/-! ## Concrete boards used by the theorems -/

/-- Extract the ok value of an RResult, with a fallback for the other cases. -/
def RResult.getOk {α : Type} (r : RResult α) (d : α) : α :=
  match r with
  | .ok a => a
  | _ => d

/-- An empty fallback board. -/
def dummyBoard : Board := ⟨BoardSide.empty .White, BoardSide.empty .Black⟩

/-- The FEN of the crate's own white en-passant pawn-generation test. -/
def c2FEN : String := "rn2k2r/pp2pp1p/8/2pPb1p1/1b3P1n/3qP1Pp/PP1P3P/RNBQKBNR w KQkq c6 0 1"

/-- The board of the crate's own white en-passant pawn-generation test. -/
def c2Board : Board := (Board.from_fen c2FEN).getOk dummyBoard

/-- White king on a1, black knight on b4. -/
def c1Board : Board := (Board.from_fen "8/8/8/8/1n6/8/8/K7 w - - 0 1").getOk dummyBoard

/-- c1Board after the white king steps from a1 to a2. -/
def c1After : Board :=
  (c1Board.apply_move ⟨posN ['a', '1'], posN ['a', '2'], .none⟩).getOk dummyBoard

/-- The default board after the double step a2a4. -/
def c3After1 : Board :=
  (Board.default.apply_move ⟨posN ['a', '2'], posN ['a', '4'], .none⟩).getOk dummyBoard

/-- A FEN board where white's own en_passant_target is set and white still has
a pawn move that is not a double step. -/
def c3FenBoard : Board := (Board.from_fen "8/8/8/8/P7/8/4P3/8 w - a3 0 1").getOk dummyBoard

/-- c3FenBoard after the single pawn step e2e3. -/
def c3After2 : Board :=
  (c3FenBoard.apply_move ⟨posN ['e', '2'], posN ['e', '3'], .none⟩).getOk dummyBoard

/-- A board where the engine side (white) has no pieces at all. -/
def c4Board : Board := (Board.from_fen "k7/8/8/8/8/8/8/8 w - - 0 1").getOk dummyBoard

/-- The queenside-castling scenario board of claim C6. -/
def c6Board0 : Board := (Board.from_fen "r3k3/8/8/8/8/8/8/R3K3 w Qq - 0 1").getOk dummyBoard

/-- c6Board0 after white castles queenside. -/
def c6Board1 : Board :=
  (c6Board0.apply_move ⟨posN ['e', '1'], posN ['c', '1'], .none⟩).getOk dummyBoard

/-- c6Board1 after black castles queenside. -/
def c6Board2 : Board :=
  (c6Board1.apply_move ⟨posN ['e', '8'], posN ['c', '8'], .none⟩).getOk dummyBoard

/-- The boards of the pawn-march capture sequence from the crate's own test
(a2a4, a4a5, a5a6, a6xb7, b7xa8=Q). -/
def c9B1 : Board :=
  (Board.default.apply_move ⟨posN ['a', '2'], posN ['a', '4'], .none⟩).getOk dummyBoard

def c9B2 : Board :=
  (c9B1.apply_move ⟨posN ['a', '4'], posN ['a', '5'], .none⟩).getOk dummyBoard

def c9B3 : Board :=
  (c9B2.apply_move ⟨posN ['a', '5'], posN ['a', '6'], .none⟩).getOk dummyBoard

def c9B4 : Board :=
  (c9B3.apply_move ⟨posN ['a', '6'], posN ['b', '7'], .none⟩).getOk dummyBoard

def c9B5 : Board :=
  (c9B4.apply_move ⟨posN ['b', '7'], posN ['a', '8'], .queen⟩).getOk dummyBoard

/-- Bitboard inclusion: every set bit of a is set in b (all boards fit in 64
bits, so quantifying below 64 suffices and keeps the predicate decidable). -/
def bbSubset (a b : Nat) : Prop :=
  ∀ i < 64, a.testBit i = true → b.testBit i = true

instance (a b : Nat) : Decidable (bbSubset a b) := by
  unfold bbSubset
  infer_instance

/-! ## Spec attack predicates for the geometry tables (claim C8) -/

/-- Distance between two coordinates. -/
def coordDist (a b : Nat) : Nat := max a b - min a b

/-- A knight on square i attacks square j on an empty board: file and rank
distances are 1 and 2 in some order (this encodes no wrap-around). -/
def knightAttacksSpec (i j : Nat) : Prop :=
  (coordDist (i % 8) (j % 8) = 1 ∧ coordDist (i / 8) (j / 8) = 2) ∨
  (coordDist (i % 8) (j % 8) = 2 ∧ coordDist (i / 8) (j / 8) = 1)

/-- A king on square i attacks square j on an empty board: one king step. -/
def kingAttacksSpec (i j : Nat) : Prop :=
  coordDist (i % 8) (j % 8) ≤ 1 ∧ coordDist (i / 8) (j / 8) ≤ 1 ∧ i ≠ j

instance (i j : Nat) : Decidable (knightAttacksSpec i j) := by
  unfold knightAttacksSpec
  infer_instance

instance (i j : Nat) : Decidable (kingAttacksSpec i j) := by
  unfold kingAttacksSpec
  infer_instance

/-! ## Claim theorems -/

/-- C2: the capture mask of get_pawn_moves_and_attacks is opposing pieces
union the opposing en_passant_target, but that target board stores the square
of the double-pushed pawn itself (already an opposing piece), so on the
crate's own test board the white d5 pawn is offered only d6 and never the
skipped square c6, contradicting the crate's pawn test which expects c6. -/
theorem c2_en_passant_capture_square_missing :
    Board.from_fen c2FEN = .ok c2Board ∧
    c2Board.black.en_passant_target = bbFromPos (posN ['c', '5']) ∧
    get_pawn_moves_and_attacks c2Board .White (bbFromPos (posN ['d', '5'])) =
      bbFromPos (posN ['d', '6']) ∧
    bbFromPos (posN ['c', '6']) &&&
      get_pawn_moves_and_attacks c2Board .White (bbFromPos (posN ['d', '5'])) = 0 := by
  decide

/-- C5: from_pure_notation reads the promotion from character index 3 (the
rank digit of the destination) instead of index 4, so a queen promotion does
not round-trip: formatting a1a2q and parsing it back yields promotion none,
contradicting the function's own doc example. -/
theorem c5_promotion_not_round_tripped :
    Move.from_pure_notation
        (Move.to_pure_notation ⟨posN ['a', '1'], posN ['a', '2'], .queen⟩) =
      .ok ⟨posN ['a', '1'], posN ['a', '2'], Promotion.none⟩ ∧
    Move.from_pure_notation
        (Move.to_pure_notation ⟨posN ['a', '1'], posN ['a', '2'], .queen⟩) ≠
      .ok ⟨posN ['a', '1'], posN ['a', '2'], Promotion.queen⟩ := by
  decide

/-- C6: from the FEN r3k3/8/8/8/8/8/8/R3K3 w Qq - 0 1, applying e1c1 and then
e8c8 puts the white king on c1, a white rook on d1, the black king on c8 and a
black rook on d8, sets both king_has_moved flags and empties both sides'
unmoved_rooks. -/
theorem c6_queenside_castling_scenario :
    Board.from_fen "r3k3/8/8/8/8/8/8/R3K3 w Qq - 0 1" = .ok c6Board0 ∧
    c6Board0.apply_move ⟨posN ['e', '1'], posN ['c', '1'], .none⟩ = .ok c6Board1 ∧
    c6Board1.apply_move ⟨posN ['e', '8'], posN ['c', '8'], .none⟩ = .ok c6Board2 ∧
    c6Board2.get_piece (posN ['c', '1']) = some (.king .White (posN ['c', '1'])) ∧
    c6Board2.get_piece (posN ['d', '1']) = some (.rook .White (posN ['d', '1'])) ∧
    c6Board2.get_piece (posN ['c', '8']) = some (.king .Black (posN ['c', '8'])) ∧
    c6Board2.get_piece (posN ['d', '8']) = some (.rook .Black (posN ['d', '8'])) ∧
    c6Board2.white.king_has_moved = true ∧
    c6Board2.black.king_has_moved = true ∧
    c6Board2.white.unmoved_rooks = 0 ∧
    c6Board2.black.unmoved_rooks = 0 := by
  decide

/-- C7 counterexample: a piece placement rank listing nine pawn squares does
not come back as an error value: the ninth piece is built through the panicking
From tuple conversion for Position, so from_fen halts instead of returning an
error. -/
theorem c7_counterexample :
    Board.from_fen "ppppppppp/8/8/8/8/8/8/8 w - - 0 1" = .panicked "invalid notation" := by
  decide

/-- C7 amended: the three malformed categories named by the spec are rejected
with returned errors: a placement with seven ranks, an invalid piece
character, an en-passant square on the fourth rank; and an overfull rank made
of digits is also an error, while an overfull rank of piece characters panics
(see the counterexample). -/
theorem c7_malformed_fen_errors :
    Board.from_fen "8/8/8/8/8/8/8 w - - 0 1" = .err "piece placement does not have 8 ranks" ∧
    Board.from_fen "xxxxxxxx/8/8/8/8/8/8/8 w - - 0 1" = .err "invalid piece descriptor" ∧
    Board.from_fen "8/8/8/8/8/8/8/8 w - e4 0 1" = .err "impossible en passant target" ∧
    Board.from_fen "9/8/8/8/8/8/8/8 w - - 0 1" = .err "incomplete rank pieces" := by
  decide

/-- C8: bit j of KNIGHT_MOVES at i is set exactly when a knight on square i
attacks square j, and bit j of KING_MOVES at i exactly when a king on i
attacks j, with no file wrap-around. -/
theorem c8_knight_king_tables_correct :
    ∀ i : Fin 64, ∀ j : Fin 64,
      ((KNIGHT_MOVES.getD i 0).testBit j = true ↔ knightAttacksSpec i j) ∧
      ((KING_MOVES.getD i 0).testBit j = true ↔ kingAttacksSpec i j) := by
  decide

/-- C10: Position::forwards is not total: for Black it computes rank_y - inc
on u8 before clamping, so a1 forwards Black by 1 underflows (a panic in debug
builds; in release the wrap would clamp to rank 7, not 0), modelled as none. -/
theorem c10_forwards_black_underflow :
    Position.forwards ⟨0, 0⟩ .Black 1 = Option.none ∧
    Position.forwards ⟨0, 0⟩ .White 1 = some ⟨0, 1⟩ := by
  decide

/-- C4 counterexample: on a board where the engine side has no pieces at all,
the root call of negamax (empty previous_moves) does not return normally: it
panics indexing previous_moves[0], so the session layer never receives a
normal no-move result. -/
theorem c4_counterexample :
    Board.from_fen "k7/8/8/8/8/8/8/8 w - - 0 1" = .ok c4Board ∧
    list_potential_moves c4Board .White = [] ∧
    negamax .White c4Board 4 .Worst .Best .White [] = .panicked "index out of bounds" := by
  decide

/-- C4 amended: at a node with no available moves negamax returns Worst when
the side to move is the engine side and Best otherwise, but only below the
root where previous_moves is nonempty; the root-level call with no moves
panics on previous_moves[0] instead of returning. -/
theorem c4_negamax_no_moves :
    (∀ (g : Color) (b : Board) (depth : Nat) (a e : Evaluation) (c : Color)
        (q : Move) (rest : List Move),
      list_potential_moves b c = [] →
      negamax g b depth a e c (q :: rest) =
        .ok ⟨if c = g then .Worst else .Best, q⟩) ∧
    (∀ (g : Color) (b : Board) (depth : Nat) (a e : Evaluation),
      list_potential_moves b g = [] →
      negamax g b depth a e g [] = .panicked "index out of bounds") := by
  constructor
  · intro g b depth a e c q rest h
    by_cases hc : c = g
    · subst hc
      cases depth <;> simp [negamax, h]
    · cases depth <;> simp [negamax, h, hc]
  · intro g b depth a e h
    cases depth <;> simp [negamax, h]

/-- C4 witness: instantiation of the amended theorem on the no-white-pieces
board, both below the root and at the root. -/
theorem c4_witness :
    negamax .White c4Board 3 .Worst .Best .White
        [⟨posN ['a', '1'], posN ['a', '2'], .none⟩] =
      .ok ⟨.Worst, ⟨posN ['a', '1'], posN ['a', '2'], .none⟩⟩ ∧
    negamax .White c4Board 2 .Worst .Best .White [] = .panicked "index out of bounds" := by
  constructor
  · have h := c4_negamax_no_moves.1 .White c4Board 3 .Worst .Best .White
      ⟨posN ['a', '1'], posN ['a', '2'], .none⟩ [] (by decide)
    simpa using h
  · exact c4_negamax_no_moves.2 .White c4Board 2 .Worst .Best (by decide)

/-- Membership through stable insertion. -/
theorem mem_insertAsc {x y : BrainMove} {l : List BrainMove} :
    x ∈ insertAsc y l ↔ x = y ∨ x ∈ l := by
  induction l with
  | nil => simp [insertAsc]
  | cons z zs ih =>
    simp only [insertAsc]
    split
    · simp [List.mem_cons]
    · simp only [List.mem_cons, ih]
      tauto

/-- The stable sort permutes membership. -/
theorem mem_stableSort {x : BrainMove} {l : List BrainMove} :
    x ∈ stableSortByEstimate l ↔ x ∈ l := by
  induction l with
  | nil => simp [stableSortByEstimate]
  | cons z zs ih => simp [stableSortByEstimate, mem_insertAsc, ih]

/-- C1 counterexample: on the FEN board with the white king on a1 and a black
knight on b4, the move a1a2 is produced by list_potential_moves although the
resulting board leaves the white king on a square attacked by the knight: the
source applies no legality filter at all. -/
theorem c1_counterexample :
    Board.from_fen "8/8/8/8/1n6/8/8/K7 w - - 0 1" = .ok c1Board ∧
    (⟨posN ['a', '1'], posN ['a', '2'], .none⟩ : Move) ∈
      (list_potential_moves c1Board .White).map (fun bm => bm.m) ∧
    c1Board.apply_move ⟨posN ['a', '1'], posN ['a', '2'], .none⟩ = .ok c1After ∧
    kingAttackedSpec c1After .White = true := by
  decide

/-- C1 amended: the inclusion direction of the claim holds: every pseudo-legal
move whose application leaves the mover's king unattacked is in the list
produced by list_potential_moves (indeed every pseudo-legal move is, since no
filter is applied); the converse direction fails, see the counterexample. -/
theorem c1_pseudo_legal_completeness :
    ∀ (b : Board) (c : Color) (m : Move),
      m ∈ rawPotentialMoves b c →
      legalSpec b c m = true →
      m ∈ (list_potential_moves b c).map (fun bm => bm.m) := by
  intro b c m hraw _hlegal
  have hmem : BrainMove.mk m (estimateOf b m) ∈ list_potential_moves b c := by
    unfold list_potential_moves
    rw [List.mem_reverse, mem_stableSort]
    exact List.mem_map_of_mem _ hraw
  exact List.mem_map.mpr ⟨_, hmem, rfl⟩

/-- C1 witness: the king-safe pseudo-legal move a1b1 on c1Board is in the
produced list. -/
theorem c1_witness :
    (⟨posN ['a', '1'], posN ['b', '1'], .none⟩ : Move) ∈
      (list_potential_moves c1Board .White).map (fun bm => bm.m) :=
  c1_pseudo_legal_completeness c1Board .White _ (by decide) (by decide)

/-- What the shared move tail guarantees on success: the mover's side is
written back unchanged, and the capture block never touches the opponent's
en_passant_target or unmoved_rooks. -/
theorem finishMove_ok {c : Color} {S O : BoardSide} {tk : Option Pieces} {b2 : Board}
    (h : finishMove c S O tk = .ok b2) :
    b2.get_side c = S ∧
    (b2.get_side c.opposite).en_passant_target = O.en_passant_target ∧
    (b2.get_side c.opposite).unmoved_rooks = O.unmoved_rooks := by
  cases tk with
  | none =>
    cases c <;> simp [finishMove] at h <;>
      (subst h; simp [Board.get_side, Color.opposite])
  | some t =>
    by_cases ht : t.get_color = c
    · simp [finishMove, ht] at h
    · cases c <;> simp [finishMove, ht] at h <;>
        (subst h; simp [Board.get_side, Color.opposite, removeTaken, BoardSide.refresh])

/-- C3 counterexample: after the double step a2a4 from the default board,
white's en_passant_target holds a4 (the destination itself), not the square
behind it (a3); and on a FEN board where white's own target is already set, a
white single pawn step leaves it set instead of clearing it. -/
theorem c3_counterexample :
    Board.default.apply_move ⟨posN ['a', '2'], posN ['a', '4'], .none⟩ = .ok c3After1 ∧
    is_pawn_two_step ⟨posN ['a', '2'], posN ['a', '4'], .none⟩ = true ∧
    c3After1.white.en_passant_target = bbFromPos (posN ['a', '4']) ∧
    ¬ c3After1.white.en_passant_target = bbFromPos (posN ['a', '3']) ∧
    Board.from_fen "8/8/8/8/P7/8/4P3/8 w - a3 0 1" = .ok c3FenBoard ∧
    c3FenBoard.white.en_passant_target = bbFromPos (posN ['a', '4']) ∧
    c3FenBoard.apply_move ⟨posN ['e', '2'], posN ['e', '3'], .none⟩ = .ok c3After2 ∧
    is_pawn_two_step ⟨posN ['e', '2'], posN ['e', '3'], .none⟩ = false ∧
    ¬ c3After2.white.en_passant_target = 0 := by
  decide

/-- C3 amended: after a pawn move by color C, C's en_passant_target has gained
exactly the destination square itself (not the square behind it) iff the move
was a double step, and is otherwise left unchanged rather than cleared; the
opponent's en_passant_target is cleared unconditionally. -/
theorem c3_en_passant_target_update :
    ∀ (b : Board) (m : Move) (b2 : Board) (c : Color),
      b.get_piece m.origin = some (.pawn c m.origin) →
      b.apply_move m = .ok b2 →
      ((is_pawn_two_step m = true →
          (b2.get_side c).en_passant_target =
            (b.get_side c).en_passant_target ||| bbFromPos m.destination) ∧
       (is_pawn_two_step m = false →
          (b2.get_side c).en_passant_target = (b.get_side c).en_passant_target) ∧
       (b2.get_side c.opposite).en_passant_target = 0) := by
  intro b m b2 c hp happ
  simp only [Board.apply_move, hp, Pieces.get_color] at happ
  by_cases hpc : popcnt (b.get_side c.opposite).en_passant_target = 1
  · rw [if_pos hpc] at happ
    cases hback : m.destination.backwards c 1 with
    | none => rw [hback] at happ; simp at happ
    | some back =>
      rw [hback] at happ
      simp only [] at happ
      obtain ⟨hs, ho, -⟩ := finishMove_ok happ
      refine ⟨?_, ?_, ?_⟩
      · intro h2; rw [hs]; simp [BoardSide.refresh, h2]
      · intro h2; rw [hs]; simp [BoardSide.refresh, h2]
      · rw [ho]
  · rw [if_neg hpc] at happ
    simp only [] at happ
    obtain ⟨hs, ho, -⟩ := finishMove_ok happ
    refine ⟨?_, ?_, ?_⟩
    · intro h2; rw [hs]; simp [BoardSide.refresh, h2]
    · intro h2; rw [hs]; simp [BoardSide.refresh, h2]
    · rw [ho]

/-- C3 witness: the amended theorem applied to the default board and a2a4. -/
theorem c3_witness :
    (c3After1.get_side .White).en_passant_target =
      (Board.default.get_side .White).en_passant_target |||
        bbFromPos (posN ['a', '4']) ∧
    (c3After1.get_side .Black).en_passant_target = 0 := by
  have h := c3_en_passant_target_update Board.default
    ⟨posN ['a', '2'], posN ['a', '4'], .none⟩ c3After1 .White (by decide) (by decide)
  exact ⟨h.1 (by decide), h.2.2⟩

/-- Adding squares on the right preserves bitboard inclusion. -/
theorem bbSubset_or_right {u r d : Nat} (h : bbSubset u r) : bbSubset u (r ||| d) := by
  intro i hi hu
  simp only [Nat.testBit_or, Bool.or_eq_true]
  exact Or.inl (h i hi hu)

/-- Clearing the same squares on both sides preserves inclusion, also into a
union. -/
theorem bbSubset_and_not {u r x d : Nat} (h : bbSubset u r) :
    bbSubset (u &&& bnot x) ((r &&& bnot x) ||| d) := by
  intro i hi hu
  simp only [Nat.testBit_and, Bool.and_eq_true] at hu
  obtain ⟨hu1, hx⟩ := hu
  simp only [Nat.testBit_or, Nat.testBit_and, Bool.or_eq_true, Bool.and_eq_true]
  exact Or.inl ⟨h i hi hu1, hx⟩

/-- C9 counterexample: along the crate's own pawn-march test sequence from the
default board (a2a4, a4a5, a5a6, a6xb7, b7xa8=Q) the promotion move captures
black's unmoved a8 rook, but the rook's bit (square index 56) stays in black's
unmoved_rooks while leaving black's rooks, so unmoved_rooks is no longer a
subset of rooks. -/
theorem c9_counterexample :
    Board.default.apply_move ⟨posN ['a', '2'], posN ['a', '4'], .none⟩ = .ok c9B1 ∧
    c9B1.apply_move ⟨posN ['a', '4'], posN ['a', '5'], .none⟩ = .ok c9B2 ∧
    c9B2.apply_move ⟨posN ['a', '5'], posN ['a', '6'], .none⟩ = .ok c9B3 ∧
    c9B3.apply_move ⟨posN ['a', '6'], posN ['b', '7'], .none⟩ = .ok c9B4 ∧
    c9B4.apply_move ⟨posN ['b', '7'], posN ['a', '8'], .queen⟩ = .ok c9B5 ∧
    c9B5.black.unmoved_rooks.testBit 56 = true ∧
    c9B5.black.rooks.testBit 56 = false ∧
    ¬ bbSubset c9B5.black.unmoved_rooks c9B5.black.rooks := by
  decide

/-- C9 amended: the subset invariant is preserved for the moving side (rook
moves and castling clear unmoved bits together with the rook bits), but the
opponent's unmoved_rooks is never modified by apply_move, in particular not
when an unmoved rook is captured, so the boardwide invariant can break (see
the counterexample). -/
theorem c9_unmoved_rooks_mover_preservation :
    ∀ (b : Board) (m : Move) (b2 : Board) (piece : Pieces) (c : Color),
      b.get_piece m.origin = some piece →
      piece.get_color = c →
      b.apply_move m = .ok b2 →
      ((bbSubset (b.get_side c).unmoved_rooks (b.get_side c).rooks →
          bbSubset (b2.get_side c).unmoved_rooks (b2.get_side c).rooks) ∧
       (b2.get_side c.opposite).unmoved_rooks = (b.get_side c.opposite).unmoved_rooks) := by
  intro b m b2 piece c hp hc happ
  cases piece with
  | pawn pc pp =>
    simp only [Pieces.get_color] at hc
    subst hc
    simp only [Board.apply_move, hp, Pieces.get_color] at happ
    by_cases hpc : popcnt (b.get_side pc.opposite).en_passant_target = 1
    · rw [if_pos hpc] at happ
      cases hback : m.destination.backwards pc 1 with
      | none => rw [hback] at happ; simp at happ
      | some back =>
        rw [hback] at happ
        simp only [] at happ
        obtain ⟨hs, -, ho⟩ := finishMove_ok happ
        refine ⟨?_, by rw [ho]⟩
        intro hsub
        rw [hs]
        by_cases h2 : is_pawn_two_step m = true <;>
          by_cases hprom : m.promotion = Promotion.rook <;>
            simp [BoardSide.refresh, h2, hprom]
        · exact bbSubset_or_right hsub
        · exact hsub
        · exact bbSubset_or_right hsub
        · exact hsub
    · rw [if_neg hpc] at happ
      simp only [] at happ
      obtain ⟨hs, -, ho⟩ := finishMove_ok happ
      refine ⟨?_, by rw [ho]⟩
      intro hsub
      rw [hs]
      by_cases h2 : is_pawn_two_step m = true <;>
        by_cases hprom : m.promotion = Promotion.rook <;>
          simp [BoardSide.refresh, h2, hprom]
      · exact bbSubset_or_right hsub
      · exact hsub
      · exact bbSubset_or_right hsub
      · exact hsub
  | rook pc pp =>
    simp only [Pieces.get_color] at hc
    subst hc
    simp only [Board.apply_move, hp, Pieces.get_color] at happ
    obtain ⟨hs, -, ho⟩ := finishMove_ok happ
    refine ⟨?_, by rw [ho]⟩
    intro hsub
    rw [hs]
    simp only [BoardSide.refresh]
    exact bbSubset_and_not hsub
  | knight pc pp =>
    simp only [Pieces.get_color] at hc
    subst hc
    simp only [Board.apply_move, hp, Pieces.get_color] at happ
    obtain ⟨hs, -, ho⟩ := finishMove_ok happ
    refine ⟨?_, by rw [ho]⟩
    intro hsub
    rw [hs]
    simpa [BoardSide.refresh] using hsub
  | bishop pc pp =>
    simp only [Pieces.get_color] at hc
    subst hc
    simp only [Board.apply_move, hp, Pieces.get_color] at happ
    obtain ⟨hs, -, ho⟩ := finishMove_ok happ
    refine ⟨?_, by rw [ho]⟩
    intro hsub
    rw [hs]
    simpa [BoardSide.refresh] using hsub
  | queen pc pp =>
    simp only [Pieces.get_color] at hc
    subst hc
    simp only [Board.apply_move, hp, Pieces.get_color] at happ
    obtain ⟨hs, -, ho⟩ := finishMove_ok happ
    refine ⟨?_, by rw [ho]⟩
    intro hsub
    rw [hs]
    simpa [BoardSide.refresh] using hsub
  | king pc pp =>
    simp only [Pieces.get_color] at hc
    subst hc
    simp only [Board.apply_move, hp, Pieces.get_color] at happ
    cases hcast : get_castling_rook_move m with
    | none =>
      rw [hcast] at happ
      simp only [] at happ
      obtain ⟨hs, -, ho⟩ := finishMove_ok happ
      refine ⟨?_, by rw [ho]⟩
      intro hsub
      rw [hs]
      simpa [BoardSide.refresh] using hsub
    | some rm =>
      rw [hcast] at happ
      simp only [] at happ
      by_cases ha1 : popcnt (bbFromPos rm.origin &&& (b.get_side pc).rooks) ≠ 1
      · rw [if_pos ha1] at happ; simp at happ
      · rw [if_neg ha1] at happ
        by_cases ha2 : popcnt (bbFromPos rm.origin &&& (b.get_side pc).unmoved_rooks) ≠ 1
        · rw [if_pos ha2] at happ; simp at happ
        · rw [if_neg ha2] at happ
          obtain ⟨hs, -, ho⟩ := finishMove_ok happ
          refine ⟨?_, by rw [ho]⟩
          intro hsub
          rw [hs]
          simp only [BoardSide.refresh]
          exact bbSubset_and_not hsub

/-- C9 witness: the amended preservation theorem applied to the default board
and the pawn move a2a4. -/
theorem c9_witness :
    bbSubset (c9B1.get_side .White).unmoved_rooks (c9B1.get_side .White).rooks ∧
    (c9B1.get_side .Black).unmoved_rooks = (Board.default.get_side .Black).unmoved_rooks := by
  have h := c9_unmoved_rooks_mover_preservation Board.default
    ⟨posN ['a', '2'], posN ['a', '4'], .none⟩ c9B1
    (Pieces.pawn .White (posN ['a', '2'])) .White (by decide) (by decide) (by decide)
  exact ⟨h.1 (by decide), h.2⟩

end Poirebot
